import Mathlib

/-!
Verification of the llm-describe-image task-pipeline core.

Shallow embedding of the pipeline engine: TaskStats counters, the generic
Task stage (queue, active set, capacity, backpressure), the priority
discovery stage (heap ordered by path depth), the worker loop dispositions,
the context relevance scoring, and the write stage artifact handling.
Machine integers are modeled as Nat or Int; the backpressure multiplier,
a Python float always instantiated at exactly representable small values,
is modeled as a rational number.
-/

namespace LlmDescribeImage

/-! ## TaskStats (src/tasks/task.py, class TaskStats) -/

structure TaskStats where
  diff_input_output : Bool
  done : Nat
  failed : Nat
  input : Nat
  output : Nat
  rejected : Nat
deriving DecidableEq, Repr

/-- All-zero counters, as produced by TaskStats.__init__. -/
def TaskStats.init : TaskStats :=
  { diff_input_output := false
    done := 0
    failed := 0
    input := 0
    output := 0
    rejected := 0 }

/-- TaskStats.finish: record a finished item with its output count. -/
def TaskStats.finish (s : TaskStats) (output_count : Nat) : TaskStats :=
  { s with
    done := s.done + 1
    input := s.input + 1
    diff_input_output := s.diff_input_output || (output_count != 1)
    output := s.output + output_count }

/-- TaskStats.fail: record a failed item. -/
def TaskStats.fail (s : TaskStats) : TaskStats :=
  { s with failed := s.failed + 1, input := s.input + 1 }

/-- TaskStats.reject: record a rejected item. -/
def TaskStats.reject (s : TaskStats) : TaskStats :=
  { s with rejected := s.rejected + 1, input := s.input + 1 }

/-- TaskStats.reset: reset all counters to zero (diff flag untouched). -/
def TaskStats.reset (s : TaskStats) : TaskStats :=
  { s with done := 0, failed := 0, input := 0, output := 0, rejected := 0 }

/-- One call on a TaskStats object. -/
inductive StatsOp
| finish (output_count : Nat)
| fail
| reject
deriving DecidableEq, Repr

def TaskStats.applyOp (s : TaskStats) : StatsOp → TaskStats
| .finish n => s.finish n
| .fail => s.fail
| .reject => s.reject

def TaskStats.applyOps (s : TaskStats) (ops : List StatsOp) : TaskStats :=
  ops.foldl TaskStats.applyOp s

/-- The stats equation is preserved by every single call. -/
lemma TaskStats.applyOp_inv (s : TaskStats) (op : StatsOp)
    (h : s.input = s.done + s.failed + s.rejected) :
    (s.applyOp op).input =
      (s.applyOp op).done + (s.applyOp op).failed + (s.applyOp op).rejected := by
  cases op <;> simp [TaskStats.applyOp, TaskStats.finish, TaskStats.fail,
    TaskStats.reject, h] <;> omega

lemma TaskStats.applyOps_inv (ops : List StatsOp) (s : TaskStats)
    (h : s.input = s.done + s.failed + s.rejected) :
    (s.applyOps ops).input =
      (s.applyOps ops).done + (s.applyOps ops).failed + (s.applyOps ops).rejected := by
  induction ops generalizing s with
  | nil => simpa [TaskStats.applyOps] using h
  | cons op rest ih =>
      simpa [TaskStats.applyOps] using ih (s.applyOp op) (s.applyOp_inv op h)

/-- C1: starting from all-zero counters, after any finite sequence of
finish(n), fail() and reject() calls, input = done + failed + rejected. -/
theorem C1_stats_invariant (ops : List StatsOp) :
    (TaskStats.init.applyOps ops).input =
      (TaskStats.init.applyOps ops).done + (TaskStats.init.applyOps ops).failed +
        (TaskStats.init.applyOps ops).rejected :=
  TaskStats.applyOps_inv ops TaskStats.init (by simp [TaskStats.init])

/-! ## Task (src/tasks/task.py, class Task)

Queue and active set hold items of the stage input type; for the claims
about queue and capacity discipline the item payload is a string. -/

structure Task where
  queue : List String
  active : List String
  maximum : Nat
  recent : TaskStats
  total : TaskStats
deriving DecidableEq, Repr

/-- Task.__init__: empty queue and active list, given concurrency limit.
The maximum is a worker count, modeled as Nat. -/
def Task.init (maximum : Nat) : Task :=
  { queue := []
    active := []
    maximum := maximum
    recent := TaskStats.init
    total := TaskStats.init }

/-- Task.add: append the item to the queue. -/
def Task.add (t : Task) (item : String) : Task :=
  { t with queue := t.queue ++ [item] }

/-- The downstream gate inside Task.start_next: true when the next task
queue has reached maximum times the backpressure multiplier. -/
def backpressure_block (next_task : Option Task) (m : ℚ) : Bool :=
  match next_task with
  | some nt => decide ((nt.queue.length : ℚ) ≥ (nt.maximum : ℚ) * m)
  | none => false

/-- Task.start_next: move the queue head to the active list when the stage
has capacity and, if a downstream task is given, its queue is below
maximum times the backpressure multiplier. Returns the started item and
the updated state. The Python float multiplier is modeled as a rational. -/
def Task.start_next (t : Task) (next_task : Option Task)
    (backpressure_multiplier : ℚ) : Option String × Task :=
  if t.active.length ≥ t.maximum ∨ t.queue = [] then
    (none, t)
  else if backpressure_block next_task backpressure_multiplier then
    (none, t)
  else
    match t.queue with
    | [] => (none, t)
    | item :: rest =>
        (some item, { t with queue := rest, active := t.active ++ [item] })

/-- Task.finish: remove the item from active (first occurrence, guarded by
membership as in the source) and update both stats objects. -/
def Task.finish (t : Task) (item : String) (output_count : Nat) : Task :=
  { t with
    active := if item ∈ t.active then t.active.erase item else t.active
    recent := t.recent.finish output_count
    total := t.total.finish output_count }

/-- Task.fail: remove the item from active and count a failure. -/
def Task.fail (t : Task) (item : String) : Task :=
  { t with
    active := if item ∈ t.active then t.active.erase item else t.active
    recent := t.recent.fail
    total := t.total.fail }

/-- Task.reject: remove the item from active and count a rejection. -/
def Task.reject (t : Task) (item : String) : Task :=
  { t with
    active := if item ∈ t.active then t.active.erase item else t.active
    recent := t.recent.reject
    total := t.total.reject }

/-- One operation on a Task. The start operation records the downstream
snapshot observed by start_next and the multiplier used. -/
inductive TaskOp
| add (item : String)
| start (next_task : Option Task) (mult : ℚ)
| finish (item : String) (output_count : Nat)
| fail (item : String)
| reject (item : String)

def Task.applyOp (t : Task) : TaskOp → Task
| .add i => t.add i
| .start nt m => (t.start_next nt m).2
| .finish i n => t.finish i n
| .fail i => t.fail i
| .reject i => t.reject i

def Task.applyOps (t : Task) (ops : List TaskOp) : Task :=
  ops.foldl Task.applyOp t

lemma Task.applyOp_maximum (t : Task) (op : TaskOp) :
    (t.applyOp op).maximum = t.maximum := by
  cases op with
  | add i => rfl
  | start nt m =>
      simp only [Task.applyOp, Task.start_next]
      split
      · rfl
      · split
        · rfl
        · split <;> rfl
  | finish i n => rfl
  | fail i => rfl
  | reject i => rfl

lemma Task.erase_length_le (l : List String) (a : String) :
    (if a ∈ l then l.erase a else l).length ≤ l.length := by
  split
  · exact (List.length_erase_le a l)
  · exact le_rfl

lemma Task.applyOp_capacity (t : Task) (op : TaskOp)
    (h : t.active.length ≤ t.maximum) :
    (t.applyOp op).active.length ≤ (t.applyOp op).maximum := by
  rw [Task.applyOp_maximum]
  cases op with
  | add i => exact h
  | start nt m =>
      simp only [Task.applyOp, Task.start_next]
      split
      · next hcap =>
          exact h
      · next hcap =>
          push_neg at hcap
          split
          · exact h
          · split
            · exact h
            · next item rest heq =>
                simp only [List.length_append, List.length_singleton]
                omega
  | finish i n => exact le_trans (Task.erase_length_le _ _) h
  | fail i => exact le_trans (Task.erase_length_le _ _) h
  | reject i => exact le_trans (Task.erase_length_le _ _) h

lemma Task.applyOps_maximum (ops : List TaskOp) (t : Task) :
    (t.applyOps ops).maximum = t.maximum := by
  induction ops generalizing t with
  | nil => rfl
  | cons op rest ih =>
      simpa [Task.applyOps, Task.applyOp_maximum] using ih (t.applyOp op)

lemma Task.applyOps_capacity (ops : List TaskOp) (t : Task)
    (h : t.active.length ≤ t.maximum) :
    (t.applyOps ops).active.length ≤ (t.applyOps ops).maximum := by
  induction ops generalizing t with
  | nil => simpa [Task.applyOps] using h
  | cons op rest ih =>
      simpa [Task.applyOps] using ih (t.applyOp op) (t.applyOp_capacity op h)

/-- C2: from the empty state, under any interleaving of add, start_next,
finish, fail and reject, the active list never exceeds maximum; start_next
returns none and leaves the state unchanged whenever the active list is at
or above maximum; and add, finish, fail and reject never append to active. -/
theorem C2_capacity_invariant :
    (∀ (maximum : Nat) (ops : List TaskOp),
      ((Task.init maximum).applyOps ops).active.length ≤ maximum) ∧
    (∀ (t : Task) (nt : Option Task) (m : ℚ), t.active.length ≥ t.maximum →
      t.start_next nt m = (none, t)) ∧
    (∀ (t : Task) (i : String) (n : Nat),
      (t.add i).active = t.active ∧
      (t.finish i n).active.length ≤ t.active.length ∧
      (t.fail i).active.length ≤ t.active.length ∧
      (t.reject i).active.length ≤ t.active.length) := by
  refine ⟨?_, ?_, ?_⟩
  · intro maximum ops
    have h := Task.applyOps_capacity ops (Task.init maximum) (by simp [Task.init])
    have hm : ((Task.init maximum).applyOps ops).maximum = maximum :=
      Task.applyOps_maximum ops (Task.init maximum)
    omega
  · intro t nt m hge
    simp [Task.start_next, hge]
  · intro t i n
    exact ⟨rfl, Task.erase_length_le _ _, Task.erase_length_le _ _,
      Task.erase_length_le _ _⟩

theorem C2_capacity_invariant_witness :
    ((Task.init 2).applyOps
      [TaskOp.add "a", TaskOp.add "b", TaskOp.start none 2]).active.length ≤ 2 ∧
    (Task.init 0).start_next none 2 = (none, Task.init 0) ∧
    ((Task.init 1).add "a").active = (Task.init 1).active := by
  refine ⟨?_, ?_, ?_⟩
  · exact C2_capacity_invariant.1 2 [TaskOp.add "a", TaskOp.add "b", TaskOp.start none 2]
  · exact C2_capacity_invariant.2.1 (Task.init 0) none 2 (by simp [Task.init])
  · exact (C2_capacity_invariant.2.2 (Task.init 1) "a" 0).1

/-- C3: with downstream maximum 2 and backpressure multiplier 2.0, a
downstream queue of 4 or more items makes start_next return none
regardless of the upstream state; with a downstream queue of 3 items, an
upstream with a queued item and spare capacity starts an item. -/
theorem C3_backpressure (up down : Task) (hm : down.maximum = 2) :
    (down.queue.length ≥ 4 → (up.start_next (some down) 2).1 = none) ∧
    (down.queue.length = 3 → up.queue ≠ [] → up.active.length < up.maximum →
      (up.start_next (some down) 2).1.isSome = true) := by
  constructor
  · intro h4
    simp only [Task.start_next]
    split
    · rfl
    · have hbp : ((down.maximum : ℚ) * 2 ≤ (down.queue.length : ℚ)) := by
        have h4q : (4 : ℚ) ≤ (down.queue.length : ℚ) := by exact_mod_cast h4
        rw [hm]
        push_cast
        linarith
      have hblock : backpressure_block (some down) 2 = true := by
        simp [backpressure_block, ge_iff_le, hbp]
      rw [if_pos hblock]
  · intro h3 hq ha
    simp only [Task.start_next]
    have h1 : ¬(up.active.length ≥ up.maximum ∨ up.queue = []) := by
      push_neg
      exact ⟨by omega, hq⟩
    rw [if_neg h1]
    have hbp : ¬((down.maximum : ℚ) * 2 ≤ (down.queue.length : ℚ)) := by
      rw [hm, h3]
      push_cast
      norm_num
    have hblock : ¬(backpressure_block (some down) 2 = true) := by
      simp [backpressure_block, ge_iff_le, hbp]
    rw [if_neg hblock]
    match hqe : up.queue with
    | [] => exact absurd hqe hq
    | item :: rest => simp

theorem C3_backpressure_witness :
    ((Task.mk ["x"] [] 1 TaskStats.init TaskStats.init).start_next
      (some (Task.mk ["a", "b", "c", "d"] [] 2 TaskStats.init TaskStats.init)) 2).1 = none ∧
    ((Task.mk ["x"] [] 1 TaskStats.init TaskStats.init).start_next
      (some (Task.mk ["a", "b", "c"] [] 2 TaskStats.init TaskStats.init)) 2).1.isSome = true := by
  constructor
  · exact (C3_backpressure _ _ rfl).1 (by decide)
  · exact (C3_backpressure _ _ rfl).2 rfl (by decide) (by decide)

/-! ## DiscoverTask (src/tasks/1. discover/task.py, class DiscoverTask)

The internal heap _heap_queue is modeled as the multiset of pushed
entries, kept as a list in push order; heappop is the documented heapq
contract: remove and return the smallest entry under the Python
lexicographic tuple order. Counters are unique, so ties never reach the
path component; the order on it is still supplied to keep the comparison
total, mirroring the Python tuple order. -/

/-- os.sep on the POSIX systems this repository targets. -/
def osSep : Char := '/'

/-- Depth used by DiscoverTask.add: item.count(os.sep). -/
def pathDepth (item : String) : Nat :=
  item.toList.countP (fun c => c == osSep)

/-- Python lexicographic order on (priority, insertion sequence, path)
heap entries, as a Boolean less-or-equal. -/
def entry_le (a b : Int × Nat × String) : Bool :=
  decide (a.1 < b.1) ||
    (decide (a.1 = b.1) &&
      (decide (a.2.1 < b.2.1) ||
        (decide (a.2.1 = b.2.1) && decide (a.2.2 ≤ b.2.2))))

/-- heapq.heappop contract: remove the leftmost smallest entry. -/
def heapPop : List (Int × Nat × String) →
    Option ((Int × Nat × String) × List (Int × Nat × String))
| [] => none
| e :: es =>
    match heapPop es with
    | none => some (e, [])
    | some (m, rest) => if entry_le e m then some (e, es) else some (m, e :: rest)

structure DiscoverTask where
  heap_queue : List (Int × Nat × String)
  counter : Nat
  active : List String
  maximum : Nat
  recent : TaskStats
  total : TaskStats
  pending_queue : List String
deriving DecidableEq, Repr

def DiscoverTask.init (maximum : Nat) : DiscoverTask :=
  { heap_queue := []
    counter := 0
    active := []
    maximum := maximum
    recent := TaskStats.init
    total := TaskStats.init
    pending_queue := [] }

/-- DiscoverTask.add: push (-depth, counter, item) and bump the counter. -/
def DiscoverTask.add (t : DiscoverTask) (item : String) : DiscoverTask :=
  { t with
    heap_queue := t.heap_queue ++ [(-(pathDepth item : Int), t.counter, item)]
    counter := t.counter + 1 }

/-- DiscoverTask.start_next: same capacity and backpressure gates as
Task.start_next, then pop the heap minimum into the active list. -/
def DiscoverTask.start_next (t : DiscoverTask) (next_task : Option Task)
    (backpressure_multiplier : ℚ) : Option String × DiscoverTask :=
  if t.active.length ≥ t.maximum ∨ t.heap_queue = [] then
    (none, t)
  else if backpressure_block next_task backpressure_multiplier then
    (none, t)
  else
    match heapPop t.heap_queue with
    | some (e, rest) =>
        (some e.2.2, { t with heap_queue := rest, active := t.active ++ [e.2.2] })
    | none => (none, t)

/-- Drain a DiscoverTask by repeated start_next with no downstream,
collecting the started items until the fuel runs out or none is returned. -/
def DiscoverTask.drain : Nat → DiscoverTask → List String
| 0, _ => []
| Nat.succ n, t =>
    match t.start_next none 2 with
    | (some i, t2) => i :: DiscoverTask.drain n t2
    | (none, _) => []

/-- C4: adding paths a/b/c, a, a/b and draining yields deepest-first order
a/b/c, a/b, a; and two equal-depth paths added X then Y dequeue X then Y. -/
theorem C4_priority_ordering :
    (DiscoverTask.drain 3 ((((DiscoverTask.init 3).add "a/b/c").add "a").add "a/b") =
      ["a/b/c", "a/b", "a"]) ∧
    (∀ (X Y : String) (maximum : Nat), pathDepth X = pathDepth Y → 2 ≤ maximum →
      DiscoverTask.drain 2 (((DiscoverTask.init maximum).add X).add Y) = [X, Y]) := by
  constructor
  · decide
  · intro X Y maximum hd hmax
    have h0 : ¬((0 : Nat) ≥ maximum) := by omega
    have h1 : ¬((1 : Nat) ≥ maximum) := by omega
    simp [DiscoverTask.drain, DiscoverTask.start_next, DiscoverTask.add,
      DiscoverTask.init, heapPop, entry_le, backpressure_block, hd, h0, h1]

theorem C4_priority_ordering_witness :
    DiscoverTask.drain 2 (((DiscoverTask.init 2).add "x/y").add "p/q") =
      ["x/y", "p/q"] :=
  C4_priority_ordering.2 "x/y" "p/q" 2 (by decide) (by decide)

/-! ## Worker loop (src/pipelines/pipeline.py, Pipeline._worker_thread)

One iteration of the worker loop for one dequeued item. Python values
flowing through the loop are modeled by a small value universe; a raised
exception is an Except.error carrying the exception text. The outcome
records, in call order, the terminal disposition calls made on the stage,
the items added to the downstream queue, and the items buffered for the
pending queue. -/

inductive PyVal
| vnone
| vbool (b : Bool)
| vint (n : Int)
| vstr (s : String)
| vtuple (elems : List PyVal)
| vlist (elems : List PyVal)
| vexc (msg : String)

/-- Python truthiness for the modeled values. -/
def PyVal.truthy : PyVal → Bool
| .vnone => false
| .vbool b => b
| .vint n => n != 0
| .vstr s => !(s == "")
| .vtuple l => !l.isEmpty
| .vlist l => !l.isEmpty
| .vexc _ => true

/-- A terminal disposition call on the stage for the dequeued item. -/
inductive Disp
| finish (output_count : Nat)
| fail
| reject
deriving DecidableEq, Repr

/-- The per-thread worker configuration from THREAD_CONFIG: whether a
downstream stage exists, the optional transform (which may raise, hence
Except), the optional rejection predicate, and the pending-queue flag. -/
structure WorkerEnv where
  has_next : Bool
  transform : Option (PyVal → Except String PyVal)
  check_rejection : Option (PyVal → Bool)
  has_pending_queue : Bool

structure WorkerOutcome where
  disps : List Disp
  next_adds : List PyVal
  pending_adds : List PyVal

/-- The error forwarding in the except-branch of the worker: only when a
downstream stage exists and the item is a tuple with at least one element
is (item[0], exception) added to the downstream queue. -/
def errorForward (has_next : Bool) (item : PyVal) (e : String) : List PyVal :=
  if has_next then
    match item with
    | .vtuple (x :: _) => [.vtuple [x, .vexc e]]
    | _ => []
  else []

/-- Elements a Python list value contributes when iterated by extend;
pending items are lists in this repository (discover subdirectories). -/
def PyVal.elems : PyVal → List PyVal
| .vlist l => l
| .vtuple l => l
| _ => []

/-- One iteration of Pipeline._worker_thread after start_next returned the
item, given the outcome of task.execute(item). -/
def workerStep (env : WorkerEnv) (item : PyVal)
    (execRes : Except String PyVal) : WorkerOutcome :=
  match execRes with
  | .error e =>
      { disps := [.fail]
        next_adds := errorForward env.has_next item e
        pending_adds := [] }
  | .ok result =>
      let is_rejected :=
        match env.check_rejection with
        | some f => f result
        | none => false
      if is_rejected then
        { disps := [.reject], next_adds := [], pending_adds := [] }
      else
        let split :=
          match env.has_pending_queue, result with
          | true, .vtuple [a, b] =>
              let oc1 :=
                match a with
                | .vlist l => l.length
                | x => if x.truthy then 1 else 0
              let oc2 :=
                match b with
                | .vlist l => l.length
                | _ => 0
              (oc1 + oc2, some b, a)
          | _, r =>
              let oc :=
                match r with
                | .vlist l => l.length
                | .vnone => 0
                | _ => 1
              (oc, none, r)
        let output_count := split.1
        let pending := split.2.1
        let result2 := split.2.2
        let pending_adds :=
          match pending with
          | some p => if p.truthy ∧ env.has_pending_queue then p.elems else []
          | none => []
        if env.has_next then
          match (match env.transform with
                 | some f => f result2
                 | none => .ok result2) with
          | .error e =>
              { disps := [.finish output_count, .fail]
                next_adds := errorForward env.has_next item e
                pending_adds := pending_adds }
          | .ok r =>
              { disps := [.finish output_count]
                next_adds :=
                  match r with
                  | .vlist l => l
                  | .vnone => []
                  | x => [x]
                pending_adds := pending_adds }
        else
          { disps := [.finish output_count]
            next_adds := []
            pending_adds := pending_adds }

/-- C5 counterexample: with a downstream stage and a transform that
raises, a successfully executed and accepted item receives two terminal
dispositions, finish and then fail, not exactly one. -/
theorem C5_counterexample :
    (workerStep
      { has_next := true
        transform := some (fun _ => Except.error "boom")
        check_rejection := none
        has_pending_queue := false }
      (.vstr "/images/a.jpg") (.ok (.vstr "result"))).disps =
      [Disp.finish 1, Disp.fail] ∧
    (workerStep
      { has_next := true
        transform := some (fun _ => Except.error "boom")
        check_rejection := none
        has_pending_queue := false }
      (.vstr "/images/a.jpg") (.ok (.vstr "result"))).disps.length ≠ 1 := by
  constructor
  · rfl
  · decide

/-- C5 amended: every worker iteration calls exactly one terminal
disposition, except that when the post-finish forwarding raises (the
optional transform throwing), finish and then fail are both called. -/
theorem C5_dispositions (env : WorkerEnv) (item : PyVal)
    (execRes : Except String PyVal) :
    (∃ d, (workerStep env item execRes).disps = [d]) ∨
    (∃ n, (workerStep env item execRes).disps = [Disp.finish n, Disp.fail]) := by
  match execRes with
  | .error e => exact Or.inl ⟨.fail, rfl⟩
  | .ok result =>
      simp only [workerStep]
      split
      · exact Or.inl ⟨.reject, rfl⟩
      · split
        · split
          · next n heq => exact Or.inr ⟨_, rfl⟩
          · next r heq => exact Or.inl ⟨_, rfl⟩
        · exact Or.inl ⟨_, rfl⟩

/-- C6 counterexample: a plain string item whose execute raised is not
forwarded downstream even though a downstream stage exists; only fail is
called and the downstream queue receives nothing. -/
theorem C6_counterexample :
    (workerStep
      { has_next := true
        transform := none
        check_rejection := none
        has_pending_queue := false }
      (.vstr "/images/a.jpg") (.error "io error")).next_adds = [] ∧
    (workerStep
      { has_next := true
        transform := none
        check_rejection := none
        has_pending_queue := false }
      (.vstr "/images/a.jpg") (.error "io error")).disps = [Disp.fail] :=
  ⟨rfl, rfl⟩

/-- C6 amended: on an execute exception, fail is always the only
disposition; the (item[0], error) pair is forwarded downstream exactly
when a downstream stage exists and the item is a tuple with at least one
element; plain string items and items with no downstream forward nothing. -/
theorem C6_error_routing (env : WorkerEnv) (e : String) :
    (∀ item, (workerStep env item (.error e)).disps = [Disp.fail]) ∧
    (∀ x rest, env.has_next = true →
      (workerStep env (.vtuple (x :: rest)) (.error e)).next_adds =
        [.vtuple [x, .vexc e]]) ∧
    (∀ s, (workerStep env (.vstr s) (.error e)).next_adds = []) ∧
    (∀ item, env.has_next = false →
      (workerStep env item (.error e)).next_adds = []) := by
  refine ⟨fun item => rfl, ?_, ?_, ?_⟩
  · intro x rest h
    simp [workerStep, errorForward, h]
  · intro s
    cases h : env.has_next <;> simp [workerStep, errorForward, h]
  · intro item h
    simp [workerStep, errorForward, h]

theorem C6_error_routing_witness :
    (workerStep
      { has_next := true
        transform := none
        check_rejection := none
        has_pending_queue := false }
      (.vtuple [.vstr "/images/a.jpg", .vstr "handle"]) (.error "io")).next_adds =
      [.vtuple [.vstr "/images/a.jpg", .vexc "io"]] :=
  (C6_error_routing
    { has_next := true
      transform := none
      check_rejection := none
      has_pending_queue := false } "io").2.1 (.vstr "/images/a.jpg") [.vstr "handle"] rfl

/-! ## Context relevance scoring
(src/tasks/context/task.py, ContextTask._calculate_relevance_score and the
scoring and sorting tail of ContextTask._get_nearby_images)

Timestamps are seconds as integers; the Python float infinity pair
returned when a datetime is missing is modeled by the top element of
WithTop Int. -/

/-- The metadata fields read by the scoring code: the recovered datetime
(none when unavailable) and its uncertainty interval. -/
structure ImageMetadata where
  datetime : Option Int
  datetime_min : Int
  datetime_max : Int
deriving DecidableEq, Repr

/-- ContextTask._calculate_relevance_score: when both datetimes are
present, the pair (abs(target_max - candidate_min),
abs(target_min - candidate_max)); otherwise (inf, inf). -/
def calculate_relevance_score (target candidate : ImageMetadata) :
    WithTop Int × WithTop Int :=
  match target.datetime, candidate.datetime with
  | some _, some _ =>
      (((|target.datetime_max - candidate.datetime_min| : Int) : WithTop Int),
       ((|target.datetime_min - candidate.datetime_max| : Int) : WithTop Int))
  | _, _ => (⊤, ⊤)

/-- Modelled from the spec: the minimum possible seconds apart over all
timestamp pairs drawn from the target interval [tmin, tmax] and the
candidate interval [cmin, cmax]; zero when the intervals overlap. The
two lemmas below pin this closed form to the stated extremum. -/
def spec_min_seconds_apart (tmin tmax cmin cmax : Int) : Int :=
  max 0 (max (cmin - tmax) (tmin - cmax))

/-- Modelled from the spec: the maximum possible seconds apart over all
timestamp pairs drawn from the two intervals. -/
def spec_max_seconds_apart (tmin tmax cmin cmax : Int) : Int :=
  max (tmax - cmin) (cmax - tmin)

/-- Every pair of timestamps from the two intervals is at least the
spec minimum and at most the spec maximum apart. -/
lemma spec_seconds_apart_bounds (tmin tmax cmin cmax p q : Int)
    (ht1 : tmin ≤ p) (ht2 : p ≤ tmax) (hc1 : cmin ≤ q) (hc2 : q ≤ cmax) :
    spec_min_seconds_apart tmin tmax cmin cmax ≤ |p - q| ∧
    |p - q| ≤ spec_max_seconds_apart tmin tmax cmin cmax := by
  have h0 : (0 : Int) ≤ |p - q| := abs_nonneg _
  rcases abs_choice (p - q) with h | h <;>
    constructor <;>
      simp only [spec_min_seconds_apart, spec_max_seconds_apart,
        max_le_iff, le_max_iff] <;> omega

/-- The spec minimum distance is attained by some pair of timestamps in
the two intervals. -/
lemma spec_min_seconds_apart_attained (tmin tmax cmin cmax : Int)
    (ht : tmin ≤ tmax) (hc : cmin ≤ cmax) :
    ∃ p q, tmin ≤ p ∧ p ≤ tmax ∧ cmin ≤ q ∧ q ≤ cmax ∧
      |p - q| = spec_min_seconds_apart tmin tmax cmin cmax := by
  rcases le_or_lt cmin tmax with hA | hA
  · rcases le_or_lt tmin cmax with hB | hB
    · refine ⟨max tmin cmin, max tmin cmin, le_max_left _ _, max_le ht hA,
        le_max_right _ _, max_le hB hc, ?_⟩
      simp only [sub_self, abs_zero, spec_min_seconds_apart, max_def]
      split_ifs <;> omega
    · refine ⟨tmin, cmax, le_refl _, ht, hc, le_refl _, ?_⟩
      have h0 : (0 : Int) ≤ |tmin - cmax| := abs_nonneg _
      rcases abs_choice (tmin - cmax) with h | h <;>
        · simp only [spec_min_seconds_apart, max_def]
          split_ifs <;> omega
  · refine ⟨tmax, cmin, ht, le_refl _, le_refl _, hc, ?_⟩
    have h0 : (0 : Int) ≤ |tmax - cmin| := abs_nonneg _
    rcases abs_choice (tmax - cmin) with h | h <;>
      · simp only [spec_min_seconds_apart, max_def]
        split_ifs <;> omega

/-- The spec maximum distance is attained by some pair of timestamps in
the two intervals. -/
lemma spec_max_seconds_apart_attained (tmin tmax cmin cmax : Int)
    (ht : tmin ≤ tmax) (hc : cmin ≤ cmax) :
    ∃ p q, tmin ≤ p ∧ p ≤ tmax ∧ cmin ≤ q ∧ q ≤ cmax ∧
      |p - q| = spec_max_seconds_apart tmin tmax cmin cmax := by
  rcases le_or_lt (tmax - cmin) (cmax - tmin) with hA | hA
  · refine ⟨tmin, cmax, le_refl _, ht, hc, le_refl _, ?_⟩
    have h0 : (0 : Int) ≤ |tmin - cmax| := abs_nonneg _
    rcases abs_choice (tmin - cmax) with h | h <;>
      · simp only [spec_max_seconds_apart, max_def]
        split_ifs
        all_goals omega
  · refine ⟨tmax, cmin, ht, le_refl _, le_refl _, hc, ?_⟩
    have h0 : (0 : Int) ≤ |tmax - cmin| := abs_nonneg _
    rcases abs_choice (tmax - cmin) with h | h <;>
      · simp only [spec_max_seconds_apart, max_def]
        split_ifs
        all_goals omega

/-- Stable insertion by ascending second score component: the new element
goes after every element whose key is less or equal, so the fold below is
a stable sort, the functional behavior of Python list.sort with
key = score maximum. -/
def insertScored (x : (WithTop Int × WithTop Int) × String) :
    List ((WithTop Int × WithTop Int) × String) →
      List ((WithTop Int × WithTop Int) × String)
| [] => [x]
| y :: ys => if y.1.2 ≤ x.1.2 then y :: insertScored x ys else x :: y :: ys

def sortScored (l : List ((WithTop Int × WithTop Int) × String)) :
    List ((WithTop Int × WithTop Int) × String) :=
  l.foldl (fun acc x => insertScored x acc) []

/-- The scoring and sorting tail of ContextTask._get_nearby_images: skip
the target itself (paths are already normalized), score every remaining
candidate against the target, and sort ascending by the second (maximum)
score component. -/
def score_candidates (target : ImageMetadata) (input_path : String)
    (cands : List (ImageMetadata × String)) :
    List ((WithTop Int × WithTop Int) × String) :=
  sortScored ((cands.filter (fun c => c.2 != input_path)).map
    (fun c => (calculate_relevance_score target c.1, c.2)))

lemma mem_insertScored (x z : (WithTop Int × WithTop Int) × String)
    (l : List ((WithTop Int × WithTop Int) × String))
    (hz : z ∈ insertScored x l) : z = x ∨ z ∈ l := by
  induction l with
  | nil => simpa [insertScored] using hz
  | cons y ys ih =>
      simp only [insertScored] at hz
      split at hz
      · rcases List.mem_cons.mp hz with h | h
        · exact Or.inr (List.mem_cons.mpr (Or.inl h))
        · rcases ih h with h2 | h2
          · exact Or.inl h2
          · exact Or.inr (List.mem_cons.mpr (Or.inr h2))
      · rcases List.mem_cons.mp hz with h | h
        · exact Or.inl h
        · exact Or.inr h

lemma pairwise_insertScored (x : (WithTop Int × WithTop Int) × String)
    (l : List ((WithTop Int × WithTop Int) × String))
    (h : l.Pairwise (fun a b => a.1.2 ≤ b.1.2)) :
    (insertScored x l).Pairwise (fun a b => a.1.2 ≤ b.1.2) := by
  induction l with
  | nil => simp [insertScored]
  | cons y ys ih =>
      rcases List.pairwise_cons.mp h with ⟨hy, hys⟩
      simp only [insertScored]
      split
      · next hle =>
          refine List.pairwise_cons.mpr ⟨?_, ih hys⟩
          intro z hz
          rcases mem_insertScored x z ys hz with rfl | hzys
          · exact hle
          · exact hy z hzys
      · next hgt =>
          have hxy : x.1.2 ≤ y.1.2 := le_of_not_le hgt
          refine List.pairwise_cons.mpr ⟨?_, h⟩
          intro z hz
          rcases List.mem_cons.mp hz with rfl | hzys
          · exact hxy
          · exact le_trans hxy (hy z hzys)

lemma sortScored_sorted_from (l acc : List ((WithTop Int × WithTop Int) × String))
    (hacc : acc.Pairwise (fun a b => a.1.2 ≤ b.1.2)) :
    (l.foldl (fun acc x => insertScored x acc) acc).Pairwise
      (fun a b => a.1.2 ≤ b.1.2) := by
  induction l generalizing acc with
  | nil => simpa using hacc
  | cons x xs ih => exact ih (insertScored x acc) (pairwise_insertScored x acc hacc)

/-- C7 counterexample: for the overlapping intervals target [0, 100] and
candidate [50, 150] the code computes a minimum bound of 50 seconds,
while the minimum possible distance over the two intervals is 0. -/
theorem C7_counterexample :
    (calculate_relevance_score
        { datetime := some 50, datetime_min := 0, datetime_max := 100 }
        { datetime := some 100, datetime_min := 50, datetime_max := 150 }).1 =
      ((50 : Int) : WithTop Int) ∧
    spec_min_seconds_apart 0 100 50 150 = 0 ∧
    ((50 : Int) : WithTop Int) ≠ ((0 : Int) : WithTop Int) := by
  refine ⟨rfl, by decide, by decide⟩

/-- C7 amended: the computed score is the pair
(abs(target_max - candidate_min), abs(target_min - candidate_max)), which
equals the spec interval minimum and maximum exactly in the ordered case
where the candidate interval starts at or after the end of the target
interval; candidates are ranked ascending by the second (conservative
maximum) component. -/
theorem C7_relevance_score :
    (∀ (t c : ImageMetadata) (td cd : Int),
      t.datetime = some td → c.datetime = some cd →
      calculate_relevance_score t c =
        (((|t.datetime_max - c.datetime_min| : Int) : WithTop Int),
         ((|t.datetime_min - c.datetime_max| : Int) : WithTop Int))) ∧
    (∀ (t c : ImageMetadata) (td cd : Int),
      t.datetime = some td → c.datetime = some cd →
      t.datetime_min ≤ t.datetime_max → t.datetime_max ≤ c.datetime_min →
      c.datetime_min ≤ c.datetime_max →
      calculate_relevance_score t c =
        (((spec_min_seconds_apart t.datetime_min t.datetime_max
            c.datetime_min c.datetime_max : Int) : WithTop Int),
         ((spec_max_seconds_apart t.datetime_min t.datetime_max
            c.datetime_min c.datetime_max : Int) : WithTop Int))) ∧
    (∀ (target : ImageMetadata) (input_path : String)
        (cands : List (ImageMetadata × String)),
      (score_candidates target input_path cands).Pairwise
        (fun a b => a.1.2 ≤ b.1.2)) := by
  refine ⟨?_, ?_, ?_⟩
  · intro t c td cd hts hcs
    simp [calculate_relevance_score, hts, hcs]
  · intro t c td cd hts hcs h1 h2 h3
    simp only [calculate_relevance_score, hts, hcs]
    have hmin : |t.datetime_max - c.datetime_min| =
        spec_min_seconds_apart t.datetime_min t.datetime_max
          c.datetime_min c.datetime_max := by
      have h0 : (0 : Int) ≤ |t.datetime_max - c.datetime_min| := abs_nonneg _
      rcases abs_choice (t.datetime_max - c.datetime_min) with h | h <;>
        · simp only [spec_min_seconds_apart, max_def]
          split_ifs <;> omega
    have hmax : |t.datetime_min - c.datetime_max| =
        spec_max_seconds_apart t.datetime_min t.datetime_max
          c.datetime_min c.datetime_max := by
      have h0 : (0 : Int) ≤ |t.datetime_min - c.datetime_max| := abs_nonneg _
      rcases abs_choice (t.datetime_min - c.datetime_max) with h | h <;>
        · simp only [spec_max_seconds_apart, max_def]
          split_ifs <;> omega
    rw [hmin, hmax]
  · intro target input_path cands
    exact sortScored_sorted_from _ [] (List.Pairwise.nil)

theorem C7_relevance_score_witness :
    calculate_relevance_score
        { datetime := some 0, datetime_min := 0, datetime_max := 0 }
        { datetime := some 10, datetime_min := 10, datetime_max := 10 } =
      (((spec_min_seconds_apart 0 0 10 10 : Int) : WithTop Int),
       ((spec_max_seconds_apart 0 0 10 10 : Int) : WithTop Int)) :=
  C7_relevance_score.2.1
    { datetime := some 0, datetime_min := 0, datetime_max := 0 }
    { datetime := some 10, datetime_min := 10, datetime_max := 10 }
    0 10 rfl rfl (by decide) (by decide) (by decide)

/-! ## ContextTask.execute (src/tasks/context/task.py)

The filesystem read is abstracted as a function from path to the stripped
file content (_read_description returns none when the file is absent or
unreadable); a whitespace-only file yields the empty string, which Python
truthiness treats like a missing description. The candidate list is the
already scored and sorted output of _get_nearby_images. The heterogeneous
Python return tuples, of arity three or five, are the two constructors of
ContextResult. -/

inductive ContextResult
| triple (path desc : String) (context_descriptions : List String)
| quint (path desc : String) (context_descriptions : List String)
    (desc2 : String) (context_full_descs : List String)
deriving DecidableEq, Repr

/-- Python falsiness of a read description: absent file or empty text. -/
def descMissing : Option String → Bool
| none => true
| some s => s == ""

/-- The candidate loop of ContextTask.execute: walk the scored candidates
in order; a missing description aborts (none); otherwise keep the
(score, path, full_desc, desc_content) entries whose maximum score bound
is below infinity. -/
def gatherContext (read_desc : String → Option String) :
    List ((WithTop Int × WithTop Int) × String) →
      Option (List ((WithTop Int × WithTop Int) × String × String × String))
| [] => some []
| (score, p) :: rest =>
    match read_desc p with
    | none => none
    | some d =>
        if d = "" then none
        else
          match gatherContext read_desc rest with
          | none => none
          | some acc =>
              if score.2 < ⊤ then some ((score, p, d, d) :: acc) else some acc

/-- ContextTask.execute: read the target description; short-circuit with
the 3-tuple on a missing target description; otherwise produce the
5-tuple, whose context lists are emptied when there are no candidates or
when any candidate description is missing. -/
def context_execute (read_desc : String → Option String)
    (max_context_items : Nat)
    (candidates_to_check : List ((WithTop Int × WithTop Int) × String))
    (input_path : String) : ContextResult :=
  match read_desc input_path with
  | none => .triple input_path "" []
  | some od =>
      if od = "" then .triple input_path "" []
      else if candidates_to_check.isEmpty then .quint input_path od [] od []
      else
        match gatherContext read_desc candidates_to_check with
        | none => .quint input_path od [] od []
        | some cands =>
            .quint input_path od
              ((cands.take max_context_items).map (fun e => e.2.2.2))
              od
              ((cands.take max_context_items).map (fun e => e.2.2.1))

lemma gatherContext_none (read_desc : String → Option String)
    (l : List ((WithTop Int × WithTop Int) × String))
    (h : ∃ c ∈ l, descMissing (read_desc c.2) = true) :
    gatherContext read_desc l = none := by
  induction l with
  | nil => simp at h
  | cons x rest ih =>
      obtain ⟨score, p⟩ := x
      rcases h with ⟨c, hc, hm⟩
      rcases List.mem_cons.mp hc with rfl | hcr
      · have hm2 : descMissing (read_desc p) = true := hm
        simp only [gatherContext]
        cases hx : read_desc p with
        | none => rfl
        | some d =>
            rw [hx] at hm2
            simp only [descMissing] at hm2
            simp [of_decide_eq_true hm2]
      · have hrest := ih ⟨c, hcr, hm⟩
        simp only [gatherContext, hrest]
        cases hx : read_desc p with
        | none => rfl
        | some d =>
            by_cases hd : d = "" <;> simp [hd]

/-- C8 counterexample: with a target that has a description, a first
candidate that has a description and a finite score, and a second
candidate without a description, execute returns empty context lists —
the first candidate is not returned, so a missing candidate artifact does
empty the whole context-gathering result. -/
theorem C8_counterexample :
    context_execute
      (fun p => if p = "/r/t.jpg" then some "T"
        else if p = "/r/a.jpg" then some "A" else none)
      20
      [((((5 : Int) : WithTop Int), ((5 : Int) : WithTop Int)), "/r/a.jpg"),
       ((((7 : Int) : WithTop Int), ((7 : Int) : WithTop Int)), "/r/b.jpg")]
      "/r/t.jpg" = .quint "/r/t.jpg" "T" [] "T" [] := by
  rfl

/-- C8 amended: if the target has no (or an empty) description, execute
short-circuits with the 3-tuple (path, empty, empty); if any candidate
lacks a description, the whole item falls back to the 5-tuple with empty
context lists — candidates are not individually excluded. -/
theorem C8_missing_artifacts (read_desc : String → Option String)
    (n : Nat) (cands : List ((WithTop Int × WithTop Int) × String))
    (input_path : String) :
    (descMissing (read_desc input_path) = true →
      context_execute read_desc n cands input_path =
        .triple input_path "" []) ∧
    (∀ od, read_desc input_path = some od → od ≠ "" →
      (∃ c ∈ cands, descMissing (read_desc c.2) = true) →
      context_execute read_desc n cands input_path =
        .quint input_path od [] od []) := by
  constructor
  · intro hmiss
    cases hr : read_desc input_path with
    | none => simp [context_execute, hr]
    | some s =>
        rw [hr] at hmiss
        simp only [descMissing] at hmiss
        simp [context_execute, hr, of_decide_eq_true hmiss]
  · intro od hr hod hex
    simp only [context_execute, hr]
    rw [if_neg hod]
    have hne : ¬cands.isEmpty = true := by
      rcases hex with ⟨c, hc, _⟩
      cases cands with
      | nil => simp at hc
      | cons a l => simp
    rw [if_neg hne, gatherContext_none read_desc cands hex]

theorem C8_missing_artifacts_witness :
    context_execute
      (fun p => if p = "/r/t.jpg" then some "T"
        else if p = "/r/a.jpg" then some "A" else none)
      20
      [((((7 : Int) : WithTop Int), ((7 : Int) : WithTop Int)), "/r/b.jpg")]
      "/r/t.jpg" = .quint "/r/t.jpg" "T" [] "T" [] :=
  (C8_missing_artifacts
    (fun p => if p = "/r/t.jpg" then some "T"
      else if p = "/r/a.jpg" then some "A" else none)
    20
    [((((7 : Int) : WithTop Int), ((7 : Int) : WithTop Int)), "/r/b.jpg")]
    "/r/t.jpg").2 "T" rfl (by decide)
    ⟨((((7 : Int) : WithTop Int), ((7 : Int) : WithTop Int)), "/r/b.jpg"),
      by simp, rfl⟩

/-- C10: execute returns the 3-tuple (path, empty, empty) exactly when the
target description is missing (or empty, which Python truthiness equates
with missing), and otherwise always returns a 5-tuple, despite the
declared 3-tuple output type. -/
theorem C10_result_arity (read_desc : String → Option String)
    (n : Nat) (cands : List ((WithTop Int × WithTop Int) × String))
    (input_path : String) :
    (descMissing (read_desc input_path) = true →
      context_execute read_desc n cands input_path =
        .triple input_path "" []) ∧
    (∀ od, read_desc input_path = some od → od ≠ "" →
      ∃ ctx full, context_execute read_desc n cands input_path =
        .quint input_path od ctx od full) := by
  constructor
  · intro hmiss
    cases hr : read_desc input_path with
    | none => simp [context_execute, hr]
    | some s =>
        rw [hr] at hmiss
        simp only [descMissing] at hmiss
        simp [context_execute, hr, of_decide_eq_true hmiss]
  · intro od hr hod
    simp only [context_execute, hr]
    rw [if_neg hod]
    by_cases hempty : cands.isEmpty = true
    · rw [if_pos hempty]
      exact ⟨[], [], rfl⟩
    · rw [if_neg hempty]
      cases hg : gatherContext read_desc cands with
      | none => exact ⟨[], [], rfl⟩
      | some l =>
          exact ⟨(l.take n).map (fun e => e.2.2.2),
            (l.take n).map (fun e => e.2.2.1), rfl⟩

theorem C10_result_arity_witness :
    context_execute (fun _ => none) 20 [] "/r/u.jpg" =
      .triple "/r/u.jpg" "" [] ∧
    ∃ ctx full, context_execute (fun _ => some "D") 20 [] "/r/u.jpg" =
      .quint "/r/u.jpg" "D" ctx "D" full :=
  ⟨(C10_result_arity (fun _ => none) 20 [] "/r/u.jpg").1 rfl,
   (C10_result_arity (fun _ => some "D") 20 [] "/r/u.jpg").2 "D" rfl
     (by decide)⟩

/-! ## WriteTask.execute (src/tasks/write/task.py)

The on-disk artifact state is an association list from path to content;
open-for-write creates or overwrites, os.remove deletes, os.path.exists
queries. In this model writes always succeed, so the re-raise branches of
the source are unreachable. The Python format template is a list of
literal and placeholder parts; an unknown placeholder raises KeyError,
modeled by none. -/

def FileSystem : Type := List (String × String)

/-- os.path.exists and reading: the content stored at a path. -/
def fsGet : FileSystem → String → Option String
| [], _ => none
| e :: rest, p => if e.1 = p then some e.2 else fsGet rest p

/-- os.remove (of every entry at the path). -/
def fsRemove : FileSystem → String → FileSystem
| [], _ => []
| e :: rest, p => if e.1 = p then fsRemove rest p else e :: fsRemove rest p

/-- open(path, w).write(content): create or overwrite. -/
def fsWrite (fs : FileSystem) (p v : String) : FileSystem :=
  (p, v) :: fsRemove fs p

def fsExists (fs : FileSystem) (p : String) : Bool :=
  (fsGet fs p).isSome

lemma fsGet_fsRemove (fs : FileSystem) (p q : String) :
    fsGet (fsRemove fs p) q = if q = p then none else fsGet fs q := by
  induction fs with
  | nil => simp [fsRemove, fsGet]
  | cons e rest ih =>
      by_cases he : e.1 = p
      · by_cases hq : q = p
        · subst hq
          simp [fsRemove, he, ih]
        · have heq : ¬e.1 = q := fun h => hq (h.symm.trans he)
          have hpq : ¬p = q := fun h => hq h.symm
          simp [fsRemove, he, ih, hq, heq, hpq, fsGet]
      · by_cases heq : e.1 = q
        · have hq : ¬q = p := fun h => he (heq.trans h)
          simp [fsRemove, he, fsGet, heq, hq]
        · simp [fsRemove, he, fsGet, heq, ih]

lemma fsGet_fsWrite (fs : FileSystem) (p v q : String) :
    fsGet (fsWrite fs p v) q = if q = p then some v else fsGet fs q := by
  by_cases hq : q = p
  · simp [fsWrite, fsGet, hq]
  · have hpq : ¬p = q := fun h => hq h.symm
    simp [fsWrite, fsGet, fsGet_fsRemove, hq, hpq]

/-- Models os.path.relpath(path, start) for the repository usage where
the path lies under the start directory; other inputs pass through. -/
def relpath (path start : String) : String :=
  if (start ++ "/").isPrefixOf path then path.drop (start ++ "/").length
  else path

/-- os.path.join for a relative second component. -/
def joinPath (a b : String) : String := a ++ "/" ++ b

lemma string_append_cancel_left (a b c : String) (h : a ++ b = a ++ c) :
    b = c := by
  have hd : a.data ++ b.data = a.data ++ c.data := by
    have hdata := congrArg String.data h
    simpa [String.data_append] using hdata
  cases b with
  | mk bd =>
      cases c with
      | mk cd =>
          simp only at hd
          exact congrArg String.mk (List.append_cancel_left hd)

lemma joinPath_suffix_ne (o rel s1 s2 : String) (h : s1 ≠ s2) :
    joinPath o (rel ++ s1) ≠ joinPath o (rel ++ s2) := by
  intro heq
  apply h
  have h1 := string_append_cancel_left (o ++ "/") (rel ++ s1) (rel ++ s2) heq
  exact string_append_cancel_left rel s1 s2 h1

/-- datetime fields used by the strftime calls of WriteTask.execute. -/
structure PyDateTime where
  year : Nat
  month : Nat
  day : Nat
  hour : Nat
  minute : Nat
  second : Nat
deriving DecidableEq, Repr

def pad2 (n : Nat) : String :=
  if n < 10 then "0" ++ toString n else toString n

def pad4 (n : Nat) : String :=
  if n < 10 then "000" ++ toString n
  else if n < 100 then "00" ++ toString n
  else if n < 1000 then "0" ++ toString n
  else toString n

/-- strftime with format %Y-%m-%d. -/
def PyDateTime.fmtDate (d : PyDateTime) : String :=
  pad4 d.year ++ "-" ++ pad2 d.month ++ "-" ++ pad2 d.day

/-- strftime with format %Y-%m-%d %H:%M:%S. -/
def PyDateTime.fmtDateTime (d : PyDateTime) : String :=
  d.fmtDate ++ " " ++ pad2 d.hour ++ ":" ++ pad2 d.minute ++ ":" ++ pad2 d.second

/-- The metadata dictionary fields read by WriteTask.execute. -/
structure WriteMeta where
  datetime : Option PyDateTime
  location_str : Option String
  filename : Option String
deriving DecidableEq, Repr

/-- One chunk of the output format string: a literal, one of the four
supplied placeholders, or an unknown placeholder. -/
inductive TemplatePart
| lit (s : String)
| datetime
| location
| content
| filename
| unknown (key : String)
deriving DecidableEq, Repr

/-- str.format with keywords datetime, location, content, filename:
substitute; an unknown placeholder raises KeyError, modeled as none. -/
def renderTemplate : List TemplatePart → String → String → String → String →
    Option String
| [], _, _, _, _ => some ""
| part :: rest, dt, loc, c, fn =>
    match renderTemplate rest dt loc c fn with
    | none => none
    | some s =>
        match part with
        | .lit t => some (t ++ s)
        | .datetime => some (dt ++ s)
        | .location => some (loc ++ s)
        | .content => some (c ++ s)
        | .filename => some (fn ++ s)
        | .unknown _ => none

/-- str.format with only the content keyword supplied. -/
def renderContentOnly : List TemplatePart → String → Option String
| [], _ => some ""
| part :: rest, c =>
    match renderContentOnly rest c with
    | none => none
    | some s =>
        match part with
        | .lit t => some (t ++ s)
        | .content => some (c ++ s)
        | _ => none

inductive ContentOrError
| text (s : String)
| exc (msg : String)
deriving DecidableEq, Repr

/-- The worker hands WriteTask either a 2-tuple (error case) or a 3-tuple
(success case with metadata). -/
inductive WriteItem
| pair (input_path : String) (content_or_error : ContentOrError)
| triple (input_path : String) (content_or_error : ContentOrError)
    (metadata : Option WriteMeta)
deriving DecidableEq, Repr

/-- The configuration fields of WriteTask read by execute; the queue,
active list and stats of the stage live in the generic Task model. -/
structure WriteTask where
  input_dir : Option String
  output_dir : Option String
  output_format : List TemplatePart
  output_suffix : String
  error_suffix : String

/-- The output and error artifact paths computed by WriteTask.execute;
Python truthiness makes an empty directory string fall back to plain
concatenation. -/
def writePaths (t : WriteTask) (input_path : String) : String × String :=
  match t.input_dir, t.output_dir with
  | some i, some o =>
      if i = "" ∨ o = "" then
        (input_path ++ t.output_suffix, input_path ++ t.error_suffix)
      else
        (joinPath o (relpath input_path i ++ t.output_suffix),
         joinPath o (relpath input_path i ++ t.error_suffix))
  | _, _ => (input_path ++ t.output_suffix, input_path ++ t.error_suffix)

/-- The formatted success content: full format, falling back on KeyError
to a content-only format, falling back to the raw content. -/
def formatContent (t : WriteTask) (metadata : Option WriteMeta) (c : String) :
    String :=
  let datetime_value :=
    match metadata with
    | some m =>
        match m.datetime with
        | some dt =>
            if dt.hour ≠ 0 ∨ dt.minute ≠ 0 ∨ dt.second ≠ 0 then dt.fmtDateTime
            else dt.fmtDate
        | none => "Unknown"
    | none => "Unknown"
  let location_value :=
    match metadata with
    | some m =>
        match m.location_str with
        | some l => if l = "" then "Unknown" else l
        | none => "Unknown"
    | none => "Unknown"
  let filename_value :=
    match metadata with
    | some m =>
        match m.filename with
        | some f => f
        | none => ""
    | none => ""
  match renderTemplate t.output_format datetime_value location_value c
      filename_value with
  | some s => s
  | none =>
      match renderContentOnly t.output_format c with
      | some s => s
      | none => c

/-- WriteTask.execute: on an error value write the error artifact; on
success write the formatted primary artifact and delete an existing error
artifact. Returns the updated filesystem and the returned path. -/
def WriteTask.execute (t : WriteTask) (fs : FileSystem) (item : WriteItem) :
    FileSystem × String :=
  let parts :=
    match item with
    | .pair p c => (p, c, (none : Option WriteMeta))
    | .triple p c m => (p, c, m)
  let input_path := parts.1
  let content_or_error := parts.2.1
  let metadata := parts.2.2
  let output_file := (writePaths t input_path).1
  let error_file := (writePaths t input_path).2
  match content_or_error with
  | .exc msg => (fsWrite fs error_file (msg ++ "\n"), error_file)
  | .text c =>
      let fs1 := fsWrite fs output_file (formatContent t metadata c)
      let fs2 := if fsExists fs1 error_file then fsRemove fs1 error_file else fs1
      (fs2, output_file)

/-- C9: with configured non-empty input and output directories and
distinct suffixes, a successful execute returns the primary artifact
path, leaves the primary artifact present and the error artifact absent
(deleting a pre-existing one); an error value writes the error artifact,
derived from the relative path plus the error suffix, with the exception
text. -/
theorem C9_write_artifacts (t : WriteTask) (fs : FileSystem)
    (path c msg : String) (md : Option WriteMeta) (i o : String)
    (hi : t.input_dir = some i) (ho : t.output_dir = some o)
    (hi2 : i ≠ "") (ho2 : o ≠ "") (hsuf : t.output_suffix ≠ t.error_suffix) :
    ((t.execute fs (.triple path (.text c) md)).2 =
        joinPath o (relpath path i ++ t.output_suffix) ∧
      fsExists (t.execute fs (.triple path (.text c) md)).1
        (joinPath o (relpath path i ++ t.output_suffix)) = true ∧
      fsExists (t.execute fs (.triple path (.text c) md)).1
        (joinPath o (relpath path i ++ t.error_suffix)) = false) ∧
    ((t.execute fs (.pair path (.exc msg))).2 =
        joinPath o (relpath path i ++ t.error_suffix) ∧
      fsGet (t.execute fs (.pair path (.exc msg))).1
        (joinPath o (relpath path i ++ t.error_suffix)) = some (msg ++ "\n")) := by
  have hpaths : writePaths t path =
      (joinPath o (relpath path i ++ t.output_suffix),
       joinPath o (relpath path i ++ t.error_suffix)) := by
    simp only [writePaths, hi, ho]
    rw [if_neg]
    push_neg
    exact ⟨hi2, ho2⟩
  have hne : joinPath o (relpath path i ++ t.output_suffix) ≠
      joinPath o (relpath path i ++ t.error_suffix) :=
    joinPath_suffix_ne o (relpath path i) t.output_suffix t.error_suffix hsuf
  constructor
  · simp only [WriteTask.execute, hpaths]
    refine ⟨by simp, ?_, ?_⟩
    · split
      · simp [fsExists, fsGet_fsRemove, fsGet_fsWrite, hne]
      · simp [fsExists, fsGet_fsWrite]
    · split
      · simp [fsExists, fsGet_fsRemove]
      · next hnotex =>
          simpa [fsExists] using hnotex
  · simp only [WriteTask.execute, hpaths]
    refine ⟨by simp, ?_⟩
    simp [fsGet_fsWrite]

theorem C9_write_artifacts_witness :
    (fsExists
      ((WriteTask.mk (some "/in") (some "/out") [TemplatePart.content]
          ".txt" ".error.txt").execute
        [("/out/a.jpg.error.txt", "old")]
        (.triple "/in/a.jpg" (.text "desc") none)).1
      (joinPath "/out" (relpath "/in/a.jpg" "/in" ++ ".txt")) = true) ∧
    (fsExists
      ((WriteTask.mk (some "/in") (some "/out") [TemplatePart.content]
          ".txt" ".error.txt").execute
        [("/out/a.jpg.error.txt", "old")]
        (.triple "/in/a.jpg" (.text "desc") none)).1
      (joinPath "/out" (relpath "/in/a.jpg" "/in" ++ ".error.txt")) = false) ∧
    (fsGet
      ((WriteTask.mk (some "/in") (some "/out") [TemplatePart.content]
          ".txt" ".error.txt").execute
        [] (.pair "/in/a.jpg" (.exc "boom"))).1
      (joinPath "/out" (relpath "/in/a.jpg" "/in" ++ ".error.txt")) =
        some ("boom" ++ "\n")) := by
  have h := C9_write_artifacts
    (WriteTask.mk (some "/in") (some "/out") [TemplatePart.content]
      ".txt" ".error.txt")
    [("/out/a.jpg.error.txt", "old")] "/in/a.jpg" "desc" "boom" none
    "/in" "/out" rfl rfl (by decide) (by decide) (by decide)
  have h2 := C9_write_artifacts
    (WriteTask.mk (some "/in") (some "/out") [TemplatePart.content]
      ".txt" ".error.txt")
    [] "/in/a.jpg" "desc" "boom" none
    "/in" "/out" rfl rfl (by decide) (by decide) (by decide)
  exact ⟨h.1.2.1, h.1.2.2, h2.2.2⟩

end LlmDescribeImage
